import Mathlib

/-!
Shallow embedding of the ESP32 smart-meter firmware
(`smart_meter_webserial.ino`): shared snapshot store, serial command
handling, label aggregation, EWMA/vote decision, feature packing, the
per-window sampling/decision loop, telemetry formatting and the display
phase dispatch.  Floating point values are modelled as rationals; the
firmware constants (alpha = 0.5, threshold 0.6, vote size 3) are exact
in this model.
-/

set_option linter.unusedVariables false

namespace SmartMeter

/-- `enum UiPhase` from the firmware. -/
inductive UiPhase where
  | UI_BOOT
  | UI_LOADING
  | UI_RUN
  | UI_ALERT
deriving DecidableEq, Repr

/-- `struct Metrics`: the shared snapshot record. -/
structure Metrics where
  V : ℚ
  I : ℚ
  P : ℚ
  theft : ℚ
  alert : Bool
  relay : Bool
  phase : UiPhase
  progress : ℚ
deriving DecidableEq, Repr

/-- Initial value of `g_last` (`{0,0,0,0,false,false, UI_BOOT, 0.0f}`). -/
def g_last_init : Metrics := ⟨0, 0, 0, 0, false, false, UiPhase.UI_BOOT, 0⟩

/-- The shared state: the mutex handle `g_last_mtx` (`true` when the mutex was
created, `false` when it is still null) together with the snapshot `g_last`. -/
structure Store where
  mtx : Bool
  snap : Metrics
deriving DecidableEq, Repr

/-- `set_metrics`: the body runs only when `g_last_mtx` is non-null and the
take succeeds (with `portMAX_DELAY` the take always succeeds); with a null
mutex the guard is false and `g_last` is not assigned. -/
def set_metrics (st : Store) (m : Metrics) : Store :=
  if st.mtx then ⟨st.mtx, m⟩ else st

/-- `get_metrics`: with the mutex it copies `g_last` under the lock, without it
the `else` branch copies `g_last` unsynchronized; both return the snapshot. -/
def get_metrics (st : Store) : Metrics :=
  st.snap

/-! ### Serial command parser -/

/-- Externally visible side effects of the command parser, in order. -/
inductive Event where
  | relaySet (b : Bool)
  | reply (line : String)
deriving DecidableEq, Repr

/-- Parser state: the line buffer (`buf`/`len`) and the relay output pin. -/
structure ParserState where
  buf : List Char
  relay : Bool
deriving DecidableEq, Repr

/-- `sizeof(buf) - 1 = 31` usable bytes. -/
def bufCap : ℕ := 31

/-- Content of the buffer as a C string after `buf[len] = 0`: the bytes up to
the first NUL, which is what `strcmp` compares. -/
def cstr (l : List Char) : List Char := l.takeWhile (fun c => c ≠ '\x00')

/-- One step of `parseCommandByte`: returns the new parser state and the
emitted events (relay writes and serial replies) in program order. -/
def parseCommandByte (st : ParserState) (c : Char) : ParserState × List Event :=
  if c = '\r' then (st, [])
  else if c ≠ '\n' then
    (⟨if st.buf.length < bufCap then st.buf ++ [c] else st.buf, st.relay⟩, [])
  else
    let line := cstr st.buf
    if line = "RELAY:ON".data then
      (⟨[], true⟩, [Event.relaySet true, Event.reply "OK:RELAY:ON"])
    else if line = "RELAY:OFF".data then
      (⟨[], false⟩, [Event.relaySet false, Event.reply "OK:RELAY:OFF"])
    else if st.buf.length ≠ 0 then
      (⟨[], st.relay⟩, [Event.reply "ERR:UNKNOWN_CMD"])
    else
      (⟨[], st.relay⟩, [])

/-- Feed a byte sequence through the parser, collecting all events. -/
def feedBytes (st : ParserState) (bs : List Char) : ParserState × List Event :=
  bs.foldl (fun acc c =>
    let r := parseCommandByte acc.1 c
    (r.1, acc.2 ++ r.2)) (st, [])

/-! ### Label aggregation (`theft_metric_from_labels`) -/

/-- `strncmp`-free Boyer-Moore-less substring scan: is `needle` a contiguous
substring of the haystack (semantics of `strstr(hay, needle) != nullptr`)? -/
def containsSub (needle : List Char) : List Char → Bool
  | [] => needle.isEmpty
  | c :: rest => needle.isPrefixOf (c :: rest) || containsSub needle rest

/-- `label_has(L, s) = strstr(L, s) != nullptr`. -/
def label_has (L s : String) : Bool := containsSub s.data L.data

/-- The five accumulators of the label loop. -/
structure LabelAcc where
  p_theft : ℚ
  p_normal : ℚ
  p_tamper : ℚ
  p_on : ℚ
  p_off : ℚ
deriving DecidableEq, Repr

/-- One iteration of the label loop: each matching substring adds the label's
value to the corresponding accumulator (independent `if`s, not `else if`s). -/
def accStep (a : LabelAcc) (lv : String × ℚ) : LabelAcc :=
  ⟨a.p_theft + (if label_has lv.1 "theft" then lv.2 else 0),
   a.p_normal + (if label_has lv.1 "normal" then lv.2 else 0),
   a.p_tamper + (if label_has lv.1 "tamper" then lv.2 else 0),
   a.p_on + (if label_has lv.1 "on" then lv.2 else 0),
   a.p_off + (if label_has lv.1 "off" then lv.2 else 0)⟩

/-- The label loop over the classification result. -/
def accumulate (a : LabelAcc) : List (String × ℚ) → LabelAcc
  | [] => a
  | lv :: ls => accumulate (accStep a lv) ls

/-- `theft_metric_from_labels` from the firmware, with the classifier result
modelled as the list of `(label, value)` pairs. -/
def theft_metric_from_labels (labels : List (String × ℚ)) (relay_on : Bool) : ℚ :=
  let a := accumulate ⟨0, 0, 0, 0, 0⟩ labels
  if a.p_theft + a.p_tamper > 0 then a.p_theft + a.p_tamper
  else if a.p_normal > 0 then 1 - a.p_normal
  else if a.p_on > 0 ∨ a.p_off > 0 then (if relay_on then a.p_on else a.p_off)
  else 1 - a.p_normal

/-! ### EWMA and majority vote -/

def EWMA_ALPHA : ℚ := 1/2

def THEFT_THRESHOLD : ℚ := 3/5

def VOTE_N : ℕ := 3

/-- Result of the per-window decision update (lines 217-222 of the task). -/
structure Decision where
  ewma : ℚ
  votes : List ℤ
  idx : ℕ
  alert : Bool
deriving DecidableEq, Repr

/-- The EWMA + majority-vote update performed after a successful window:
new ewma, vote ring-buffer write at the current index, index rotation and
the alert from the threshold-or-vote disjunction. -/
def decisionUpdate (ewma : ℚ) (votes : List ℤ) (idx : ℕ) (p : ℚ) : Decision :=
  let e := EWMA_ALPHA * p + (1 - EWMA_ALPHA) * ewma
  let v := votes.set idx (if p ≥ 1/2 then (1 : ℤ) else 0)
  let i := (idx + 1) % VOTE_N
  let vote_theft : Bool := decide (v.sum ≥ (((VOTE_N + 1) / 2 : ℕ) : ℤ))
  ⟨e, v, i, (decide (e ≥ THEFT_THRESHOLD) || vote_theft)⟩

/-! ### Telemetry formatting -/

/-- Decimal rendering of a natural number left-padded with zeros. -/
def natPad (n : ℕ) (width : ℕ) : String :=
  let s := toString n
  String.mk (List.replicate (width - s.length) '0') ++ s

/-- Fixed-point rendering of a nonnegative rational with `prec` digits after
the point (the nonnegative case of printf's `%.*f`). -/
def fmtFixedNonneg (q : ℚ) (prec : ℕ) : String :=
  let n := (round (q * (10 : ℚ) ^ prec)).toNat
  toString (n / 10 ^ prec) ++ "." ++ natPad (n % 10 ^ prec) prec

/-- printf `%.*f`. On the exact decimal values arising in this development the
binary double rounding of the C library agrees with exact rational rounding. -/
def fmtFixed (q : ℚ) (prec : ℕ) : String :=
  if q < 0 then "-" ++ fmtFixedNonneg (-q) prec else fmtFixedNonneg q prec

/-- The per-window telemetry line
`DATA:V=%.3f,I=%.3f,P=%.3f,THEFT=%.2f,ALERT=%d`. -/
def dataLine (V I P theft : ℚ) (alert : Bool) : String :=
  "DATA:V=" ++ fmtFixed V 3 ++ ",I=" ++ fmtFixed I 3 ++ ",P=" ++ fmtFixed P 3 ++
    ",THEFT=" ++ fmtFixed theft 2 ++ ",ALERT=" ++ (if alert then "1" else "0")

/-- The classifier failure line `ERR:Classifier(%d)`. -/
def errLine (code : ℤ) : String := "ERR:Classifier(" ++ toString code ++ ")"

/-! ### Feature packing -/

/-- `R = relayIsOn() ? 1.0f : 0.0f`. -/
def relayFeature (r : Bool) : ℚ := if r then 1 else 0

/-- The zero-fill loop `for (k = 4; k < axes; k++) features[base+k] = 0`,
phrased by remaining count: `zeroTail f i k` zeroes positions `i..i+k-1`. -/
def zeroTail (f : List ℚ) (i : ℕ) : ℕ → List ℚ
  | 0 => f
  | k + 1 => zeroTail (f.set i 0) (i + 1) k

/-- Body of the pack guard: the four guarded axis writes followed by the
zero fill of the remaining axes of one sample slot at `base`. -/
def writeSlot (f : List ℚ) (base axes : ℕ) (V I : ℚ) (R : Bool) : List ℚ :=
  let f1 := if 1 ≤ axes then f.set (base + 0) V else f
  let f2 := if 2 ≤ axes then f1.set (base + 1) I else f1
  let f3 := if 3 ≤ axes then f2.set (base + 2) (V * I) else f2
  let f4 := if 4 ≤ axes then f3.set (base + 3) (relayFeature R) else f3
  zeroTail f4 (base + 4) (axes - 4)

/-- The expected contents of one sample slot (for at least four axes):
voltage, current, power, relay flag, zeros. -/
def slotOf (axes : ℕ) (s : ℚ × ℚ × Bool) : List ℚ :=
  [s.1, s.2.1, s.1 * s.2.1, relayFeature s.2.2] ++ List.replicate (axes - 4) 0

/-- Concatenation of all slots of a window. -/
def slots (axes : ℕ) (samples : List (ℚ × ℚ × Bool)) : List ℚ :=
  (samples.map (slotOf axes)).flatten

/-! ### The sampling loop of `taskML` -/

/-- Loop-carried state of the per-sample loop: write cursor `ix`, the
`features` array, the three running sums, the shared store and the list of
arguments of the `set_metrics` calls made so far in this window. -/
structure SampAcc where
  ix : ℕ
  feats : List ℚ
  sumV : ℚ
  sumI : ℚ
  sumP : ℚ
  store : Store
  writes : List Metrics
deriving DecidableEq, Repr

/-- The first-window progress write: `mm = get_metrics(); mm.phase =
UI_LOADING; mm.progress = (n+1)/kRawCount; set_metrics(mm)`. -/
def loadingWrite (store : Store) (prog : ℚ) : Metrics :=
  let mm := get_metrics store
  ⟨mm.V, mm.I, mm.P, mm.theft, mm.alert, mm.relay, UiPhase.UI_LOADING, prog⟩

/-- One iteration of the sample loop (`n` is the loop counter, `s` the sensor
reading `(V, I, relay)` of this sample): guarded feature pack, sum update,
and the LOADING snapshot write while `first_window` holds. -/
def sampleStep (axes rawCount : ℕ) (firstWindow : Bool) (acc : SampAcc)
    (n : ℕ) (s : ℚ × ℚ × Bool) : SampAcc :=
  let V := s.1
  let I := s.2.1
  let P := V * I
  let R := s.2.2
  let acc1 : SampAcc :=
    if acc.ix + axes ≤ acc.feats.length then
      ⟨acc.ix + axes, writeSlot acc.feats acc.ix axes V I R,
        acc.sumV, acc.sumI, acc.sumP, acc.store, acc.writes⟩
    else acc
  let acc2 : SampAcc :=
    ⟨acc1.ix, acc1.feats, acc1.sumV + V, acc1.sumI + I, acc1.sumP + P,
      acc1.store, acc1.writes⟩
  if firstWindow then
    let mm := loadingWrite acc2.store ((n + 1 : ℚ) / (rawCount : ℚ))
    ⟨acc2.ix, acc2.feats, acc2.sumV, acc2.sumI, acc2.sumP,
      set_metrics acc2.store mm, acc2.writes ++ [mm]⟩
  else acc2

/-- The sample loop `for (n = 0; n < kRawCount; n++)`, one list element per
sensor reading. -/
def sampleLoopAux (axes rawCount : ℕ) (firstWindow : Bool) (n : ℕ)
    (acc : SampAcc) : List (ℚ × ℚ × Bool) → SampAcc
  | [] => acc
  | s :: rest =>
      sampleLoopAux axes rawCount firstWindow (n + 1)
        (sampleStep axes rawCount firstWindow acc n s) rest

/-! ### One iteration of the `taskML` window loop -/

/-- Persistent state of `taskML` together with the shared store and the
status LED. -/
structure MLState where
  ewma : ℚ
  votes : List ℤ
  idx : ℕ
  firstWindow : Bool
  feats : List ℚ
deriving DecidableEq, Repr

structure SysState where
  ml : MLState
  store : Store
  led : Bool
deriving DecidableEq, Repr

/-- Inputs consumed by one window: the sensor readings `(V, I, relay)` of the
`kRawCount` samples, the classifier outcome for the packed buffer, and the
relay readback taken after classification. -/
structure WindowInput where
  samples : List (ℚ × ℚ × Bool)
  outcome : Except ℤ (List (String × ℚ))
  relayAfter : Bool

/-- Result of one window: new state, emitted serial lines, and the arguments
of all `set_metrics` calls of the window in order. -/
structure WindowRes where
  sys : SysState
  lines : List String
  writes : List Metrics
deriving Repr

/-- One iteration of the infinite window loop of `taskML`: sample and pack
`kRawCount` readings (with LOADING progress writes during the first window),
run the classifier, and either log the failure and continue, or run the
decision update, drive the LED, emit the DATA line and write the snapshot.
The snapshot written on success sets every field, so the preceding
`get_metrics` read is elided. -/
def runWindow (axes : ℕ) (st : SysState) (inp : WindowInput) : WindowRes :=
  let rawCount := inp.samples.length
  let acc0 : SampAcc := ⟨0, st.ml.feats, 0, 0, 0, st.store, []⟩
  let acc := sampleLoopAux axes rawCount st.ml.firstWindow 0 acc0 inp.samples
  match inp.outcome with
  | Except.error code =>
      ⟨⟨⟨st.ml.ewma, st.ml.votes, st.ml.idx, st.ml.firstWindow, acc.feats⟩,
          acc.store, st.led⟩,
        [errLine code], acc.writes⟩
  | Except.ok labels =>
      let relay_on := inp.relayAfter
      let theft_prob := theft_metric_from_labels labels relay_on
      let d := decisionUpdate st.ml.ewma st.ml.votes st.ml.idx theft_prob
      let V_mean := acc.sumV / (rawCount : ℚ)
      let I_mean := acc.sumI / (rawCount : ℚ)
      let P_mean := acc.sumP / (rawCount : ℚ)
      let line := dataLine V_mean I_mean P_mean d.ewma d.alert
      let m : Metrics := ⟨V_mean, I_mean, P_mean, d.ewma, d.alert, relay_on,
        if d.alert then UiPhase.UI_ALERT else UiPhase.UI_RUN, 1⟩
      ⟨⟨⟨d.ewma, d.votes, d.idx, false, acc.feats⟩,
          set_metrics acc.store m, d.alert⟩,
        [line], acc.writes ++ [m]⟩

/-! ### Display worker -/

/-- The view rendered by one display tick, with the data it is drawn from. -/
inductive View where
  | boot (frame : ℕ)
  | loading (m : Metrics) (now : ℕ)
  | alert (m : Metrics) (now : ℕ)
  | run (m : Metrics)
deriving DecidableEq, Repr

/-- The BOOT animation budget (`boot_frames < 20`). -/
def BOOT_FRAME_BUDGET : ℕ := 20

/-- One iteration of `taskDisplay`: read the snapshot, dispatch on phase with
the local boot-frame budget, return the (unchanged) store, the rendered view
and the new local frame counter. -/
def displayTick (store : Store) (boot_frames : ℕ) (now : ℕ) :
    Store × View × ℕ :=
  let m := get_metrics store
  if m.phase = UiPhase.UI_BOOT ∧ boot_frames < BOOT_FRAME_BUDGET then
    (store, View.boot boot_frames, boot_frames + 1)
  else if m.phase = UiPhase.UI_LOADING then
    (store, View.loading m now, boot_frames)
  else if m.phase = UiPhase.UI_ALERT then
    (store, View.alert m now, boot_frames)
  else
    (store, View.run m, boot_frames)

def SCREEN_WIDTH : ℕ := 128

/-- Clamp of the progress value as written in `drawLoading`. -/
def clamp01 (q : ℚ) : ℚ := if q < 0 then 0 else if q > 1 then 1 else q

/-- `int w = (int)((SCREEN_WIDTH - 4) * clamp(progress))` in `drawLoading`;
the clamped operand is nonnegative, so the C truncation is the floor. -/
def drawLoadingFillWidth (progress : ℚ) : ℤ :=
  Int.floor (((SCREEN_WIDTH : ℚ) - 4) * clamp01 progress)

/-! ### Specification-side definitions

These definitions follow the words of the specification claims (not the
source); they exist to be compared with the source-derived definitions
above. -/

/-- Sum of the values of the labels satisfying a predicate. -/
def sumWhere (p : String → Bool) : List (String × ℚ) → ℚ
  | [] => 0
  | lv :: ls => (if p lv.1 then lv.2 else 0) + sumWhere p ls

/-- The aggregation procedure exactly as the claim words it: (a) the summed
probability of labels containing "theft" or "tamper" (each such label counted
once) when that sum is positive; (b) else `1 - normal-sum` when a label
containing "normal" is present; (c) else the on/off sums when such a label is
present; (d) else `1 - normal-sum`. -/
def theftMetricClaimed (labels : List (String × ℚ)) (relay_on : Bool) : ℚ :=
  let ttsum := sumWhere (fun L => label_has L "theft" || label_has L "tamper") labels
  let nsum := sumWhere (fun L => label_has L "normal") labels
  let onsum := sumWhere (fun L => label_has L "on") labels
  let offsum := sumWhere (fun L => label_has L "off") labels
  if ttsum > 0 then ttsum
  else if labels.any (fun lv => label_has lv.1 "normal") then 1 - nsum
  else if labels.any (fun lv => label_has lv.1 "on" || label_has lv.1 "off") then
    (if relay_on then onsum else offsum)
  else 1 - nsum

/-- The aggregation procedure as amended: the theft-sum plus the tamper-sum
(a label containing both substrings contributes to both) when that total is
positive; else `1 - normal-sum` when the normal-sum is positive; else the
on/off branch when the on-sum or the off-sum is positive; else
`1 - normal-sum`. -/
def theftMetricAmended (labels : List (String × ℚ)) (relay_on : Bool) : ℚ :=
  let tsum := sumWhere (fun L => label_has L "theft") labels
  let tamsum := sumWhere (fun L => label_has L "tamper") labels
  let nsum := sumWhere (fun L => label_has L "normal") labels
  let onsum := sumWhere (fun L => label_has L "on") labels
  let offsum := sumWhere (fun L => label_has L "off") labels
  if tsum + tamsum > 0 then tsum + tamsum
  else if nsum > 0 then 1 - nsum
  else if onsum > 0 ∨ offsum > 0 then (if relay_on then onsum else offsum)
  else 1 - nsum

/-- Write the values `vs` into consecutive positions of `f` starting at `i`
(helper describing sequences of in-place array stores). -/
def setSeq (f : List ℚ) (i : ℕ) : List ℚ → List ℚ
  | [] => f
  | v :: vs => setSeq (f.set i v) (i + 1) vs

/-! ## Theorems -/

/-! ### C1: EWMA, vote ring buffer and alert decision -/

/-- C1: after each successfully classified window the decision update sets
`ewma' = 0.5*p + 0.5*ewma`, overwrites slot `idx` (the oldest slot) of the
3-slot vote ring with `1` if `p ≥ 0.5` else `0`, rotates the index modulo 3,
and alerts exactly when `ewma' ≥ 0.6` or the vote sum is at least 2; a vote
history `[1,0,1]` satisfies the vote condition, `[1,0,0]` does not, and
whenever `ewma' ≥ 0.6` the alert fires regardless of the votes. -/
theorem c1_decision_update (ewma p : ℚ) (votes : List ℤ) (idx : ℕ) :
    (decisionUpdate ewma votes idx p).ewma = (1/2) * p + (1/2) * ewma
    ∧ (decisionUpdate ewma votes idx p).votes =
        votes.set idx (if p ≥ 1/2 then (1 : ℤ) else 0)
    ∧ (decisionUpdate ewma votes idx p).idx = (idx + 1) % 3
    ∧ ((decisionUpdate ewma votes idx p).alert = true ↔
        ((decisionUpdate ewma votes idx p).ewma ≥ 3/5 ∨
          (decisionUpdate ewma votes idx p).votes.sum ≥ 2))
    ∧ ([(1 : ℤ), 0, 1].sum ≥ 2)
    ∧ ¬ ([(1 : ℤ), 0, 0].sum ≥ 2)
    ∧ ((decisionUpdate ewma votes idx p).ewma ≥ 3/5 →
        (decisionUpdate ewma votes idx p).alert = true) := by
  refine ⟨?_, rfl, rfl, ?_, by decide, by decide, ?_⟩
  · show EWMA_ALPHA * p + (1 - EWMA_ALPHA) * ewma = (1/2) * p + (1/2) * ewma
    rw [EWMA_ALPHA]; ring
  · simp only [decisionUpdate, Bool.or_eq_true, decide_eq_true_eq]
    norm_num [VOTE_N, THEFT_THRESHOLD, ge_iff_le]
  · intro h
    simp only [decisionUpdate, Bool.or_eq_true, decide_eq_true_eq]
    left
    simpa [decisionUpdate, THEFT_THRESHOLD, ge_iff_le] using h

/-- Closed instance of `c1_decision_update`, with the implication conjuncts
discharged at `ewma = 1, p = 1, votes = [0,0,0], idx = 0`. -/
theorem c1_decision_update_witness :
    (decisionUpdate 1 [0, 0, 0] 0 1).ewma = (1/2) * 1 + (1/2) * 1
    ∧ (decisionUpdate 1 [0, 0, 0] 0 1).alert = true := by
  obtain ⟨h1, _, _, _, _, _, h7⟩ := c1_decision_update 1 1 [0, 0, 0] 0
  refine ⟨h1, h7 ?_⟩
  rw [h1]; norm_num

/-! ### C3: store operations with an unavailable mutex -/

/-- C3 counterexample: with the mutex unavailable, `write` does not replace
the stored snapshot: the update is silently skipped. -/
theorem c3_counterexample :
    set_metrics ⟨false, g_last_init⟩ ⟨1, 0, 0, 0, false, false, UiPhase.UI_RUN, 0⟩
        = ⟨false, g_last_init⟩
    ∧ g_last_init ≠ ⟨1, 0, 0, 0, false, false, UiPhase.UI_RUN, 0⟩ := by
  constructor
  · rfl
  · intro h
    exact absurd (congrArg Metrics.V h) (by norm_num [g_last_init])

/-- C3 amended: when the mutex is unavailable neither operation blocks or
aborts: `read` still returns a copy of the current snapshot, but `write`
skips the update entirely, leaving the stored snapshot unchanged (with the
mutex available, `write` replaces the snapshot). -/
theorem c3_amended_store_ops (s : Metrics) (m : Metrics) :
    get_metrics ⟨false, s⟩ = s
    ∧ set_metrics ⟨false, s⟩ m = ⟨false, s⟩
    ∧ get_metrics ⟨true, s⟩ = s
    ∧ set_metrics ⟨true, s⟩ m = ⟨true, m⟩ := by
  exact ⟨rfl, rfl, rfl, rfl⟩

/-! ### C9: display phase dispatch and the loading bar -/

/-- C9 counterexample: at progress 0.01 the rendered fill width is the
integer 1, not the claimed product `interior-width × progress` (which is
1.24), because the C cast truncates. -/
theorem c9_counterexample :
    drawLoadingFillWidth (1/100) = 1
    ∧ ((drawLoadingFillWidth (1/100) : ℚ) ≠
        ((SCREEN_WIDTH : ℚ) - 4) * clamp01 (1/100)) := by
  with_unfolding_all decide

/-- C9 amended: each tick renders exactly one view — BOOT iff phase is BOOT
and the local counter is under the budget, LOADING iff phase is LOADING,
ALERT iff phase is ALERT, RUN otherwise; with the BOOT budget exhausted and
phase still BOOT the RUN view is rendered from the (still default) snapshot;
the worker never writes the store; and the loading fill width is the floor of
the bar's interior width (124) times the progress clamped to `[0,1]`, which
is exactly half the interior width at progress 0.5. -/
theorem c9_amended_display (store : Store) (frames now : ℕ) :
    (displayTick store frames now).1 = store
    ∧ ((∃ f, (displayTick store frames now).2.1 = View.boot f) ↔
        (store.snap.phase = UiPhase.UI_BOOT ∧ frames < BOOT_FRAME_BUDGET))
    ∧ ((∃ m t, (displayTick store frames now).2.1 = View.loading m t) ↔
        store.snap.phase = UiPhase.UI_LOADING)
    ∧ ((∃ m t, (displayTick store frames now).2.1 = View.alert m t) ↔
        store.snap.phase = UiPhase.UI_ALERT)
    ∧ ((∃ m, (displayTick store frames now).2.1 = View.run m) ↔
        (¬ (store.snap.phase = UiPhase.UI_BOOT ∧ frames < BOOT_FRAME_BUDGET)
          ∧ store.snap.phase ≠ UiPhase.UI_LOADING
          ∧ store.snap.phase ≠ UiPhase.UI_ALERT))
    ∧ (store.snap.phase = UiPhase.UI_BOOT → BOOT_FRAME_BUDGET ≤ frames →
        (displayTick store frames now).2.1 = View.run (get_metrics store))
    ∧ (∀ p : ℚ, drawLoadingFillWidth p = Int.floor ((124 : ℚ) * clamp01 p))
    ∧ drawLoadingFillWidth (1/2) = 62 := by
  refine ⟨?_, ?_, ?_, ?_, ?_, ?_, ?_, ?_⟩
  · simp only [displayTick, get_metrics]
    split_ifs <;> rfl
  · simp only [displayTick, get_metrics]
    split_ifs with h1 h2 h3 <;> simp_all
  · simp only [displayTick, get_metrics]
    split_ifs with h1 h2 h3 <;> simp_all
  · simp only [displayTick, get_metrics]
    split_ifs with h1 h2 h3 <;> simp_all
  · simp only [displayTick, get_metrics]
    split_ifs with h1 h2 h3 <;> simp_all
  · intro hb hf
    simp only [displayTick, get_metrics]
    split_ifs with h1 h2 h3 <;> simp_all
    omega
  · intro p
    unfold drawLoadingFillWidth SCREEN_WIDTH
    norm_num
  · with_unfolding_all decide

/-- Closed instance of `c9_amended_display` at the initial BOOT snapshot with
the frame budget exhausted: the RUN view is rendered with the zero metrics. -/
theorem c9_amended_display_witness :
    (displayTick ⟨true, g_last_init⟩ 20 0).2.1 = View.run g_last_init := by
  have h := (c9_amended_display ⟨true, g_last_init⟩ 20 0).2.2.2.2.2.1
  exact h rfl (by norm_num [BOOT_FRAME_BUDGET])

/-! ### C2: the label aggregation heuristic -/

/-- C2 counterexample: with labels `normal` (probability 0) and `on`
(probability 1) and the relay off, the claimed presence-based procedure
returns 1 (rule (b): a label containing "normal" is present), but the code
skips rule (b) because the normal-sum is not positive and returns the
off-sum 0 from rule (c). -/
theorem c2_counterexample :
    theft_metric_from_labels [("normal", 0), ("on", 1)] false = 0
    ∧ theftMetricClaimed [("normal", 0), ("on", 1)] false = 1 := by
  with_unfolding_all decide

/-- The label loop computes the five per-substring sums. -/
theorem accumulate_eq (ls : List (String × ℚ)) (a : LabelAcc) :
    accumulate a ls =
      ⟨a.p_theft + sumWhere (fun L => label_has L "theft") ls,
       a.p_normal + sumWhere (fun L => label_has L "normal") ls,
       a.p_tamper + sumWhere (fun L => label_has L "tamper") ls,
       a.p_on + sumWhere (fun L => label_has L "on") ls,
       a.p_off + sumWhere (fun L => label_has L "off") ls⟩ := by
  induction ls generalizing a with
  | nil => simp [accumulate, sumWhere]
  | cons lv ls ih =>
      show accumulate (accStep a lv) ls = _
      rw [ih]
      simp only [accStep, sumWhere, LabelAcc.mk.injEq]
      refine ⟨?_, ?_, ?_, ?_, ?_⟩ <;> ring

/-- C2 amended: the code's aggregation equals the per-substring-sum
procedure whose guards test positivity of the sums (not mere presence of a
matching label), with a label containing both "theft" and "tamper" counted
in both sums. -/
theorem c2_amended_metric (labels : List (String × ℚ)) (relay_on : Bool) :
    theft_metric_from_labels labels relay_on = theftMetricAmended labels relay_on := by
  unfold theft_metric_from_labels theftMetricAmended
  rw [accumulate_eq]
  simp only [zero_add]

/-! ### Parser trace lemmas (shared by the command-protocol claims) -/

/-- Folding the parser from an arbitrary event prefix appends the events. -/
theorem feedBytes_aux (bs : List Char) (st : ParserState) (evs : List Event) :
    bs.foldl (fun acc c =>
        let r := parseCommandByte acc.1 c
        (r.1, acc.2 ++ r.2)) (st, evs) =
      ((feedBytes st bs).1, evs ++ (feedBytes st bs).2) := by
  induction bs generalizing st evs with
  | nil => simp [feedBytes]
  | cons c rest ih =>
      simp only [feedBytes, List.foldl_cons, List.nil_append] at ih ⊢
      rw [ih ((parseCommandByte st c).1) (evs ++ (parseCommandByte st c).2),
        ih ((parseCommandByte st c).1) ((parseCommandByte st c).2)]
      simp

/-- Unfolding one byte of `feedBytes`. -/
theorem feedBytes_cons (st : ParserState) (c : Char) (bs : List Char) :
    feedBytes st (c :: bs) =
      ((feedBytes (parseCommandByte st c).1 bs).1,
        (parseCommandByte st c).2 ++ (feedBytes (parseCommandByte st c).1 bs).2) := by
  simp only [feedBytes, List.foldl_cons]
  rw [feedBytes_aux]
  simp [feedBytes]

/-- `feedBytes` splits over concatenation of the input. -/
theorem feedBytes_append (st : ParserState) (xs ys : List Char) :
    feedBytes st (xs ++ ys) =
      ((feedBytes (feedBytes st xs).1 ys).1,
        (feedBytes st xs).2 ++ (feedBytes (feedBytes st xs).1 ys).2) := by
  induction xs generalizing st with
  | nil => simp [feedBytes]
  | cons c rest ih =>
      rw [List.cons_append, feedBytes_cons, ih, feedBytes_cons]
      simp

/-- Feeding newline-free bytes emits nothing and stores the carriage-return
filtered bytes up to the free capacity of the buffer. -/
theorem feedBytes_noNewline (line : List Char) (st : ParserState)
    (h : '\n' ∉ line) (hlen : st.buf.length ≤ bufCap) :
    feedBytes st line =
      (⟨st.buf ++ (line.filter (fun c => c ≠ '\r')).take (bufCap - st.buf.length),
        st.relay⟩, []) := by
  induction line generalizing st with
  | nil => simp [feedBytes]
  | cons c rest ih =>
      have hc : c ≠ '\n' := fun hc => h (hc ▸ List.mem_cons_self c rest)
      have hrest : '\n' ∉ rest := fun hr => h (List.mem_cons_of_mem c hr)
      rw [feedBytes_cons]
      by_cases hcr : c = '\r'
      · subst hcr
        have hp : parseCommandByte st '\r' = (st, []) := by
          simp [parseCommandByte]
        rw [hp, ih st hrest hlen]
        simp
      · have hp : parseCommandByte st c =
            (⟨if st.buf.length < bufCap then st.buf ++ [c] else st.buf, st.relay⟩, []) := by
          simp [parseCommandByte, hcr, hc]
        rw [hp]
        by_cases hfull : st.buf.length < bufCap
        · simp only [if_pos hfull]
          rw [ih ⟨st.buf ++ [c], st.relay⟩ hrest (by simp; omega)]
          simp only [List.filter_cons, hcr]
          have : (decide (c ≠ '\r')) = true := by simp [hcr]
          rw [this]
          simp only [List.length_append, List.length_singleton, if_true]
          have htake : (c :: List.filter (fun c => decide (c ≠ '\r')) rest).take
              (bufCap - st.buf.length) =
              c :: (List.filter (fun c => decide (c ≠ '\r')) rest).take
                (bufCap - (st.buf.length + 1)) := by
            have h1 : bufCap - st.buf.length = (bufCap - (st.buf.length + 1)) + 1 := by omega
            rw [h1, List.take_succ_cons]
          rw [htake]
          simp
        · simp only [if_neg hfull]
          have heq : st.buf.length = bufCap := by omega
          rw [ih st hrest hlen]
          simp only [List.filter_cons]
          have : (decide (c ≠ '\r')) = true := by simp [hcr]
          rw [this]
          have h0 : bufCap - st.buf.length = 0 := by omega
          rw [h0]
          simp

/-- The newline step from a buffer `b` (within capacity): the `strcmp`
dispatch of `parseCommandByte`. -/
theorem parseCommandByte_newline (b : List Char) (r : Bool) :
    parseCommandByte ⟨b, r⟩ '\n' =
      (if cstr b = "RELAY:ON".data then
        (⟨[], true⟩, [Event.relaySet true, Event.reply "OK:RELAY:ON"])
      else if cstr b = "RELAY:OFF".data then
        (⟨[], false⟩, [Event.relaySet false, Event.reply "OK:RELAY:OFF"])
      else if b.length ≠ 0 then
        (⟨[], r⟩, [Event.reply "ERR:UNKNOWN_CMD"])
      else
        (⟨[], r⟩, [])) := by
  simp [parseCommandByte]

/-- Feeding a single byte. -/
theorem feedBytes_single (st : ParserState) (c : Char) :
    feedBytes st [c] = ((parseCommandByte st c).1, (parseCommandByte st c).2) := by
  rw [feedBytes_cons]
  simp [feedBytes]

/-- A NUL-free byte list is its own `strcmp` view. -/
theorem cstr_of_no_nul (l : List Char) (h : '\x00' ∉ l) : cstr l = l := by
  apply List.takeWhile_eq_self_iff.2
  intro c hc
  simp only [ne_eq, decide_eq_true_eq]
  exact fun h0 => h (h0 ▸ hc)

/-! ### C6: the serial command protocol -/

/-- C6 counterexample: the buffered line `RELAY:ON\0X` (an 11-byte line,
fully buffered, no carriage returns) is non-empty and equal to neither
`RELAY:ON` nor `RELAY:OFF`, so by the claim it should produce
`ERR:UNKNOWN_CMD` and leave the relay unchanged; but `strcmp` stops at the
NUL byte, so the code switches the relay on and replies `OK:RELAY:ON`. -/
theorem c6_counterexample :
    feedBytes ⟨[], false⟩ ("RELAY:ON".data ++ ['\x00', 'X', '\n'])
        = (⟨[], true⟩, [Event.relaySet true, Event.reply "OK:RELAY:ON"])
    ∧ ("RELAY:ON".data ++ ['\x00', 'X']) ≠ "RELAY:ON".data
    ∧ ("RELAY:ON".data ++ ['\x00', 'X']) ≠ "RELAY:OFF".data
    ∧ ("RELAY:ON".data ++ ['\x00', 'X']).length ≠ 0
    ∧ '\r' ∉ ("RELAY:ON".data ++ ['\x00', 'X'])
    ∧ ("RELAY:ON".data ++ ['\x00', 'X']).length ≤ bufCap := by
  with_unfolding_all decide

/-- C6 amended: carriage returns are discarded; other non-newline bytes are
appended while fewer than 31 bytes are buffered and silently dropped
afterward; nothing is executed or emitted before a newline; at the newline
the dispatch compares the buffered bytes up to the first NUL (the `strcmp`
view of the buffer) with `RELAY:ON` / `RELAY:OFF`, the relay write preceding
the reply; any other line with at least one buffered byte replies
`ERR:UNKNOWN_CMD` without touching the relay, an empty line produces no
reply, and the buffer is reset after every newline.  On NUL-free input the
compared line is exactly the buffered line. -/
theorem c6_amended_protocol (r : Bool) (line : List Char) (h : '\n' ∉ line) :
    (feedBytes ⟨[], r⟩ line).2 = []
    ∧ (feedBytes ⟨[], r⟩ line).1.buf
        = (line.filter (fun c => c ≠ '\r')).take bufCap
    ∧ (feedBytes ⟨[], r⟩ line).1.relay = r
    ∧ feedBytes ⟨[], r⟩ (line ++ ['\n'])
        = (if cstr ((line.filter (fun c => c ≠ '\r')).take bufCap) = "RELAY:ON".data then
            (⟨[], true⟩, [Event.relaySet true, Event.reply "OK:RELAY:ON"])
          else if cstr ((line.filter (fun c => c ≠ '\r')).take bufCap) = "RELAY:OFF".data then
            (⟨[], false⟩, [Event.relaySet false, Event.reply "OK:RELAY:OFF"])
          else if ((line.filter (fun c => c ≠ '\r')).take bufCap).length ≠ 0 then
            (⟨[], r⟩, [Event.reply "ERR:UNKNOWN_CMD"])
          else
            (⟨[], r⟩, []))
    ∧ ('\x00' ∉ line →
        cstr ((line.filter (fun c => c ≠ '\r')).take bufCap)
          = (line.filter (fun c => c ≠ '\r')).take bufCap) := by
  have hfeed := feedBytes_noNewline line ⟨[], r⟩ h (by simp [bufCap])
  simp only [List.nil_append, List.length_nil, Nat.sub_zero] at hfeed
  refine ⟨by rw [hfeed], by rw [hfeed], by rw [hfeed], ?_, ?_⟩
  · rw [feedBytes_append, hfeed]
    have hsingle : ∀ st : ParserState, feedBytes st ['\n'] =
        ((parseCommandByte st '\n').1, (parseCommandByte st '\n').2) := by
      intro st
      rw [feedBytes_cons]
      simp [feedBytes]
    rw [hsingle, parseCommandByte_newline]
    split_ifs <;> simp
  · intro hn
    apply cstr_of_no_nul
    intro hc
    exact hn (List.mem_of_mem_filter (List.mem_of_mem_take hc))

/-- Closed instance of `c6_amended_protocol` on the line `RELAY:OFF`. -/
theorem c6_amended_protocol_witness :
    feedBytes ⟨[], true⟩ ("RELAY:OFF".data ++ ['\n'])
      = (⟨[], false⟩, [Event.relaySet false, Event.reply "OK:RELAY:OFF"]) := by
  have h := (c6_amended_protocol true "RELAY:OFF".data (by decide)).2.2.2.1
  rw [h]
  with_unfolding_all decide

/-! ### C10: over-long NUL-free lines -/

/-- C10: a line with no NUL and no newline whose carriage-return-filtered
length exceeds the 31-byte capacity is truncated to a 31-byte buffer that can
equal neither command, so the parser replies `ERR:UNKNOWN_CMD` and the relay
is unchanged. -/
theorem c10_overlong_line (r : Bool) (line : List Char)
    (h1 : '\n' ∉ line) (h2 : '\x00' ∉ line)
    (h3 : bufCap < (line.filter (fun c => c ≠ '\r')).length) :
    feedBytes ⟨[], r⟩ (line ++ ['\n'])
      = (⟨[], r⟩, [Event.reply "ERR:UNKNOWN_CMD"]) := by
  have hfeed := feedBytes_noNewline line ⟨[], r⟩ h1 (by simp [bufCap])
  simp only [List.nil_append, List.length_nil, Nat.sub_zero] at hfeed
  have hlen31 : ((line.filter (fun c => c ≠ '\r')).take bufCap).length = bufCap := by
    rw [List.length_take]
    omega
  have hcstr : cstr ((line.filter (fun c => c ≠ '\r')).take bufCap)
      = (line.filter (fun c => c ≠ '\r')).take bufCap := by
    apply cstr_of_no_nul
    intro hc
    exact h2 (List.mem_of_mem_filter (List.mem_of_mem_take hc))
  have hne1 : cstr ((line.filter (fun c => c ≠ '\r')).take bufCap) ≠ "RELAY:ON".data := by
    rw [hcstr]
    intro he
    have hl := congrArg List.length he
    rw [hlen31] at hl
    revert hl
    with_unfolding_all decide
  have hne2 : cstr ((line.filter (fun c => c ≠ '\r')).take bufCap) ≠ "RELAY:OFF".data := by
    rw [hcstr]
    intro he
    have hl := congrArg List.length he
    rw [hlen31] at hl
    revert hl
    with_unfolding_all decide
  rw [feedBytes_append, hfeed, feedBytes_single, parseCommandByte_newline]
  rw [if_neg hne1, if_neg hne2, if_pos (by rw [hlen31]; simp [bufCap])]
  simp

/-- Closed instance of `c10_overlong_line` on a 32-byte line of `A`s. -/
theorem c10_overlong_line_witness :
    feedBytes ⟨[], false⟩ (List.replicate 32 'A' ++ ['\n'])
      = (⟨[], false⟩, [Event.reply "ERR:UNKNOWN_CMD"]) := by
  exact c10_overlong_line false (List.replicate 32 'A')
    (by decide) (by decide) (by decide)

/-! ### C7: feature buffer packing -/

/-- Writing a slot with at least four axes is the consecutive-store sequence
of the slot contents. -/
theorem writeSlot_eq_setSeq (f : List ℚ) (base axes : ℕ) (V I : ℚ) (R : Bool)
    (h4 : 4 ≤ axes) :
    writeSlot f base axes V I R = setSeq f base (slotOf axes (V, I, R)) := by
  have hz : ∀ (g : List ℚ) (i k : ℕ),
      zeroTail g i k = setSeq g i (List.replicate k 0) := by
    intro g i k
    induction k generalizing g i with
    | zero => rfl
    | succ k ih => simp [zeroTail, setSeq, List.replicate_succ, ih]
  have h1 : 1 ≤ axes := by omega
  have h2 : 2 ≤ axes := by omega
  have h3 : 3 ≤ axes := by omega
  simp only [writeSlot, if_pos h1, if_pos h2, if_pos h3, if_pos h4, hz]
  rfl

/-- `setSeq` preserves the length. -/
theorem setSeq_length (vs : List ℚ) (f : List ℚ) (i : ℕ) :
    (setSeq f i vs).length = f.length := by
  induction vs generalizing f i with
  | nil => rfl
  | cons v vs ih => simp [setSeq, ih]

/-- Consecutive stores split over concatenation of the value list. -/
theorem setSeq_append (xs ys : List ℚ) (f : List ℚ) (i : ℕ) :
    setSeq f i (xs ++ ys) = setSeq (setSeq f i xs) (i + xs.length) ys := by
  induction xs generalizing f i with
  | nil => simp [setSeq]
  | cons x xs ih =>
      simp only [List.cons_append, setSeq, List.length_cons, List.append_eq]
      rw [ih]
      have h : i + 1 + xs.length = i + (xs.length + 1) := by omega
      rw [h]

/-- An in-bounds consecutive store splices the values into the list. -/
theorem setSeq_eq_splice (vs : List ℚ) (f : List ℚ) (i : ℕ)
    (h : i + vs.length ≤ f.length) :
    setSeq f i vs = f.take i ++ vs ++ f.drop (i + vs.length) := by
  induction vs generalizing f i with
  | nil =>
      show f = f.take i ++ [] ++ f.drop (i + 0)
      rw [List.append_nil, Nat.add_zero, List.take_append_drop]
  | cons v vs ih =>
      have hi : i < f.length := by
        simp only [List.length_cons] at h
        omega
      have hlen' : (i + 1) + vs.length ≤ (f.set i v).length := by
        simp only [List.length_set]
        simp only [List.length_cons] at h
        omega
      rw [show setSeq f i (v :: vs) = setSeq (f.set i v) (i + 1) vs from rfl,
        ih _ _ hlen', List.set_eq_take_cons_drop v hi]
      have hA : (f.take i).length = i := List.length_take_of_le (le_of_lt hi)
      rw [List.take_append_eq_append_take, hA,
        List.take_of_length_le (le_of_eq_of_le hA (by omega)),
        show i + 1 - i = 1 from by omega]
      rw [List.drop_append_eq_append_drop, hA,
        List.drop_of_length_le (le_of_eq_of_le hA (by omega)),
        show i + 1 + vs.length - i = vs.length + 1 from by omega]
      simp only [List.take_succ_cons, List.take_zero, List.drop_succ_cons,
        List.nil_append, List.drop_drop]
      rw [show i + 1 + vs.length = i + (v :: vs).length from by
        simp only [List.length_cons]
        omega]
      simp [List.append_assoc]

/-- Length of one slot. -/
theorem slotOf_length (axes : ℕ) (h4 : 4 ≤ axes) (s : ℚ × ℚ × Bool) :
    (slotOf axes s).length = axes := by
  simp [slotOf]
  omega

/-- Length of the concatenated slots of a window. -/
theorem slots_length (axes : ℕ) (h4 : 4 ≤ axes) (samples : List (ℚ × ℚ × Bool)) :
    (slots axes samples).length = samples.length * axes := by
  induction samples with
  | nil => simp [slots]
  | cons s rest ih =>
      simp only [slots, List.map_cons, List.flatten_cons, List.length_append,
        List.length_cons] at ih ⊢
      rw [ih, slotOf_length axes h4]
      ring

/-- Extraction of the `j`-th slot from the concatenated slots. -/
theorem slots_extract (axes : ℕ) (h4 : 4 ≤ axes)
    (samples : List (ℚ × ℚ × Bool)) (j : ℕ) (hj : j < samples.length) :
    ((slots axes samples).drop (j * axes)).take axes
      = slotOf axes (samples.get ⟨j, hj⟩) := by
  induction samples generalizing j with
  | nil => simp at hj
  | cons s rest ih =>
      cases j with
      | zero =>
          simp only [slots, List.map_cons, List.flatten_cons, Nat.zero_mul,
            List.drop_zero, List.get]
          rw [List.take_append_eq_append_take,
            List.take_of_length_le (le_of_eq (slotOf_length axes h4 s)),
            slotOf_length axes h4, Nat.sub_self, List.take_zero, List.append_nil]
      | succ j =>
          simp only [slots, List.map_cons, List.flatten_cons, List.get]
          rw [List.drop_append_eq_append_drop, slotOf_length axes h4]
          have h1 : (j + 1) * axes = axes + j * axes := by ring
          rw [List.drop_of_length_le (by rw [slotOf_length axes h4]; omega)]
          rw [show (j + 1) * axes - axes = j * axes from by rw [h1]; omega]
          simp only [List.nil_append]
          exact ih j (by simpa using hj)

/-- One sample step with the pack guard satisfied: the features receive the
slot write and the cursor advances by one slot; the loading branch touches
only the store and the write log. -/
theorem sampleStep_feats (axes rawCount : ℕ) (fw : Bool) (acc : SampAcc)
    (n : ℕ) (s : ℚ × ℚ × Bool) (hguard : acc.ix + axes ≤ acc.feats.length) :
    (sampleStep axes rawCount fw acc n s).feats
        = writeSlot acc.feats acc.ix axes s.1 s.2.1 s.2.2
    ∧ (sampleStep axes rawCount fw acc n s).ix = acc.ix + axes := by
  cases fw <;> simp [sampleStep, if_pos hguard]

/-- A sample step never touches the store or write log when the first-window
flag is clear. -/
theorem sampleStep_store_notFirst (axes rawCount : ℕ) (acc : SampAcc)
    (n : ℕ) (s : ℚ × ℚ × Bool) :
    (sampleStep axes rawCount false acc n s).store = acc.store
    ∧ (sampleStep axes rawCount false acc n s).writes = acc.writes := by
  simp only [sampleStep]
  split_ifs <;> simp_all

/-- The sample loop never touches the store or write log when the
first-window flag is clear. -/
theorem sampleLoopAux_store_notFirst (axes rawCount : ℕ) (n : ℕ)
    (acc : SampAcc) (samples : List (ℚ × ℚ × Bool)) :
    (sampleLoopAux axes rawCount false n acc samples).store = acc.store
    ∧ (sampleLoopAux axes rawCount false n acc samples).writes = acc.writes := by
  induction samples generalizing n acc with
  | nil => exact ⟨rfl, rfl⟩
  | cons s rest ih =>
      have hs := sampleStep_store_notFirst axes rawCount acc n s
      have hr := ih (n + 1) (sampleStep axes rawCount false acc n s)
      exact ⟨hr.1.trans hs.1, hr.2.trans hs.2⟩

/-- The sample loop writes the slots of its samples consecutively from the
cursor (whenever the window fits into the remaining buffer). -/
theorem sampleLoopAux_feats (axes rawCount : ℕ) (fw : Bool) (h4 : 4 ≤ axes)
    (samples : List (ℚ × ℚ × Bool)) :
    ∀ (n : ℕ) (acc : SampAcc),
      acc.ix + samples.length * axes ≤ acc.feats.length →
      (sampleLoopAux axes rawCount fw n acc samples).feats
          = setSeq acc.feats acc.ix (slots axes samples)
      ∧ (sampleLoopAux axes rawCount fw n acc samples).ix
          = acc.ix + samples.length * axes := by
  induction samples with
  | nil =>
      intro n acc hfit
      exact ⟨rfl, by simp [sampleLoopAux]⟩
  | cons s rest ih =>
      intro n acc hfit
      simp only [sampleLoopAux]
      simp only [List.length_cons] at hfit
      have hguard : acc.ix + axes ≤ acc.feats.length := by nlinarith
      have hstep := sampleStep_feats axes rawCount fw acc n s hguard
      have hlen2 : (sampleStep axes rawCount fw acc n s).feats.length
          = acc.feats.length := by
        rw [hstep.1, writeSlot_eq_setSeq acc.feats acc.ix axes s.1 s.2.1 s.2.2 h4,
          setSeq_length]
      have hfit2 : (sampleStep axes rawCount fw acc n s).ix + rest.length * axes
          ≤ (sampleStep axes rawCount fw acc n s).feats.length := by
        rw [hstep.2, hlen2]
        nlinarith
      have hr := ih (n + 1) (sampleStep axes rawCount fw acc n s) hfit2
      refine ⟨?_, ?_⟩
      · rw [hr.1, hstep.1, hstep.2,
          writeSlot_eq_setSeq acc.feats acc.ix axes s.1 s.2.1 s.2.2 h4]
        have hs2 : slots axes (s :: rest) = slotOf axes s ++ slots axes rest := by
          simp [slots]
        rw [hs2, setSeq_append, slotOf_length axes h4]
      · rw [hr.2, hstep.2, List.length_cons]
        ring

/-- C7: for every window (first or later, any store state, any loop-counter
base), when the buffer length is `samples × axes` (the `static_assert` of the
firmware) and there are at least the four modelled axes, the packed feature
buffer is exactly the concatenation of the per-sample slots: its length is an
exact multiple of the axes count, and the slot of sample `j` holds voltage,
current, power = V·I, the relay flag as 1/0, and zeros in all remaining
axes. -/
theorem c7_feature_packing (axes rawCount n0 : ℕ) (fw : Bool) (h4 : 4 ≤ axes)
    (samples : List (ℚ × ℚ × Bool)) (f0 : List ℚ) (store : Store)
    (hlen : f0.length = samples.length * axes) :
    (sampleLoopAux axes rawCount fw n0 ⟨0, f0, 0, 0, 0, store, []⟩ samples).feats
        = slots axes samples
    ∧ (sampleLoopAux axes rawCount fw n0 ⟨0, f0, 0, 0, 0, store, []⟩
        samples).feats.length = samples.length * axes
    ∧ ∀ (j : ℕ) (hj : j < samples.length),
        (((sampleLoopAux axes rawCount fw n0 ⟨0, f0, 0, 0, 0, store, []⟩
            samples).feats.drop (j * axes)).take axes)
          = [(samples.get ⟨j, hj⟩).1, (samples.get ⟨j, hj⟩).2.1,
              (samples.get ⟨j, hj⟩).1 * (samples.get ⟨j, hj⟩).2.1,
              relayFeature (samples.get ⟨j, hj⟩).2.2]
            ++ List.replicate (axes - 4) 0 := by
  have hmain := sampleLoopAux_feats axes rawCount fw h4 samples n0
    ⟨0, f0, 0, 0, 0, store, []⟩ (by dsimp only; omega)
  have hsplice := setSeq_eq_splice (slots axes samples) f0 0
    (by rw [slots_length axes h4]; omega)
  have hfeats : (sampleLoopAux axes rawCount fw n0
      ⟨0, f0, 0, 0, 0, store, []⟩ samples).feats = slots axes samples := by
    rw [hmain.1]
    dsimp only
    rw [hsplice]
    simp only [List.take_zero, List.nil_append, Nat.zero_add]
    rw [List.drop_of_length_le (by rw [hlen, slots_length axes h4]),
      List.append_nil]
  refine ⟨hfeats, ?_, ?_⟩
  · rw [hfeats, slots_length axes h4]
  · intro j hj
    rw [hfeats, slots_extract axes h4 samples j hj]
    rfl

/-- Closed instance of `c7_feature_packing`: one sample `(V,I,relay) =
(2,3,on)` with four axes packs the buffer `[2, 3, 6, 1]`. -/
theorem c7_feature_packing_witness :
    (sampleLoopAux 4 1 false 0 ⟨0, [0, 0, 0, 0], 0, 0, 0, ⟨true, g_last_init⟩, []⟩
        [(2, 3, true)]).feats = [2, 3, 6, 1] := by
  have h := (c7_feature_packing 4 1 0 false (by decide) [(2, 3, true)]
    [0, 0, 0, 0] ⟨true, g_last_init⟩ (by decide)).1
  rw [h]
  with_unfolding_all decide

/-! ### C5: classifier failure handling -/

/-- C5 counterexample: in the first window, with one sample and a failing
classifier (status 5), exactly the `ERR:Classifier(5)` line is emitted and
the decision state is untouched — but the shared Snapshot is NOT left
unchanged over that window: the sampling phase already rewrote it to a
LOADING snapshot. -/
theorem c5_counterexample :
    (runWindow 4 ⟨⟨0, [0, 0, 0], 0, true, [0, 0, 0, 0]⟩, ⟨true, g_last_init⟩, false⟩
        ⟨[(1, 1, true)], Except.error 5, true⟩).lines = ["ERR:Classifier(5)"]
    ∧ (runWindow 4 ⟨⟨0, [0, 0, 0], 0, true, [0, 0, 0, 0]⟩, ⟨true, g_last_init⟩, false⟩
        ⟨[(1, 1, true)], Except.error 5, true⟩).sys.store.snap ≠ g_last_init
    ∧ (runWindow 4 ⟨⟨0, [0, 0, 0], 0, true, [0, 0, 0, 0]⟩, ⟨true, g_last_init⟩, false⟩
        ⟨[(1, 1, true)], Except.error 5, true⟩).sys.store.snap.phase
      = UiPhase.UI_LOADING := by
  with_unfolding_all decide

/-- C5 amended: on a non-success classifier status the window emits exactly
the one `ERR:Classifier(<code>)` line (no DATA line), leaves the ewma, the
vote history and its index, the LED and the first-window flag unchanged, and
performs no post-classification snapshot write; in particular in any window
entered with the first-window flag clear the shared store and the write log
are untouched.  (In a window still flagged first, the sampling-phase LOADING
writes do alter the Snapshot.) -/
theorem c5_amended_classifier_error (axes : ℕ) (st : SysState)
    (inp : WindowInput) (code : ℤ) (herr : inp.outcome = Except.error code) :
    (runWindow axes st inp).lines = [errLine code]
    ∧ (runWindow axes st inp).sys.ml.ewma = st.ml.ewma
    ∧ (runWindow axes st inp).sys.ml.votes = st.ml.votes
    ∧ (runWindow axes st inp).sys.ml.idx = st.ml.idx
    ∧ (runWindow axes st inp).sys.led = st.led
    ∧ (runWindow axes st inp).sys.ml.firstWindow = st.ml.firstWindow
    ∧ (st.ml.firstWindow = false →
        (runWindow axes st inp).sys.store = st.store
        ∧ (runWindow axes st inp).writes = []) := by
  simp only [runWindow, herr]
  refine ⟨by trivial, by trivial, by trivial, by trivial, by trivial, by trivial, ?_⟩
  intro hfw
  rw [hfw]
  have h := sampleLoopAux_store_notFirst axes inp.samples.length 0
    ⟨0, st.ml.feats, 0, 0, 0, st.store, []⟩ inp.samples
  exact ⟨h.1, h.2⟩

/-- Closed instance of `c5_amended_classifier_error` in a non-first window:
nothing but the error line happens. -/
theorem c5_amended_classifier_error_witness :
    (runWindow 4 ⟨⟨1/4, [1, 0, 0], 1, false, [0, 0, 0, 0]⟩, ⟨true, g_last_init⟩, true⟩
        ⟨[(1, 1, true)], Except.error (-3), false⟩).lines = [errLine (-3)]
    ∧ (runWindow 4 ⟨⟨1/4, [1, 0, 0], 1, false, [0, 0, 0, 0]⟩, ⟨true, g_last_init⟩, true⟩
        ⟨[(1, 1, true)], Except.error (-3), false⟩).sys.store
      = ⟨true, g_last_init⟩ := by
  have h := c5_amended_classifier_error 4
    ⟨⟨1/4, [1, 0, 0], 1, false, [0, 0, 0, 0]⟩, ⟨true, g_last_init⟩, true⟩
    ⟨[(1, 1, true)], Except.error (-3), false⟩ (-3) rfl
  exact ⟨h.1, (h.2.2.2.2.2.2 rfl).1⟩

/-! ### C4: LOADING-phase snapshot writes -/

/-- C4 counterexample: if the first window's classifier fails, the
first-window flag is not cleared (the `continue` skips the clearing), so the
second window of the run still performs LOADING-phase snapshot writes —
contradicting "nowhere else than the very first window". -/
theorem c4_counterexample :
    ((runWindow 4
        (runWindow 4 ⟨⟨0, [0, 0, 0], 0, true, [0, 0, 0, 0]⟩, ⟨true, g_last_init⟩, false⟩
          ⟨[(1, 1, true)], Except.error 5, true⟩).sys
        ⟨[(1, 1, true)], Except.error 5, true⟩).writes.map Metrics.phase)
      = [UiPhase.UI_LOADING] := by
  with_unfolding_all decide

/-- Every sample step taken with the first-window flag set appends exactly
one LOADING-phase entry to the write log. -/
theorem sampleStep_writes_first (axes rawCount : ℕ) (acc : SampAcc)
    (n : ℕ) (s : ℚ × ℚ × Bool) :
    ∃ mm, (sampleStep axes rawCount true acc n s).writes = acc.writes ++ [mm]
      ∧ mm.phase = UiPhase.UI_LOADING := by
  simp only [sampleStep]
  split_ifs <;> exact ⟨_, rfl, rfl⟩

/-- With the first-window flag set, the sample loop logs exactly one
LOADING-phase write per sample. -/
theorem sampleLoopAux_writes_first (axes rawCount : ℕ)
    (samples : List (ℚ × ℚ × Bool)) :
    ∀ (n : ℕ) (acc : SampAcc),
      ((sampleLoopAux axes rawCount true n acc samples).writes.filter
          (fun m => m.phase = UiPhase.UI_LOADING)).length
        = (acc.writes.filter (fun m => m.phase = UiPhase.UI_LOADING)).length
            + samples.length := by
  induction samples with
  | nil => intro n acc; simp [sampleLoopAux]
  | cons s rest ih =>
      intro n acc
      simp only [sampleLoopAux, List.length_cons]
      rw [ih (n + 1) (sampleStep axes rawCount true acc n s)]
      obtain ⟨mm, hw, hph⟩ := sampleStep_writes_first axes rawCount acc n s
      rw [hw, List.filter_append, List.length_append]
      simp [hph]
      omega

/-- C4 amended: LOADING-phase snapshot writes occur during the sampling of
every window entered with the first-window flag set (one per sample); the
flag is cleared exactly by a successful classification (a failed window
keeps it set); and a window entered with the flag clear performs no
LOADING-phase write and leaves the flag clear. -/
theorem c4_amended_loading_writes (axes : ℕ) (st : SysState) (inp : WindowInput) :
    (st.ml.firstWindow = false →
      (∀ m ∈ (runWindow axes st inp).writes, m.phase ≠ UiPhase.UI_LOADING)
      ∧ (runWindow axes st inp).sys.ml.firstWindow = false)
    ∧ (st.ml.firstWindow = true →
      ((runWindow axes st inp).writes.filter
          (fun m => m.phase = UiPhase.UI_LOADING)).length = inp.samples.length)
    ∧ (∀ labels, inp.outcome = Except.ok labels →
        (runWindow axes st inp).sys.ml.firstWindow = false)
    ∧ (∀ code, inp.outcome = Except.error code →
        (runWindow axes st inp).sys.ml.firstWindow = st.ml.firstWindow) := by
  refine ⟨?_, ?_, ?_, ?_⟩
  · intro hfw
    cases houtcome : inp.outcome with
    | error code =>
        simp only [runWindow, houtcome, hfw]
        have h := sampleLoopAux_store_notFirst axes inp.samples.length 0
          ⟨0, st.ml.feats, 0, 0, 0, st.store, []⟩ inp.samples
        rw [h.2]
        exact ⟨by intro m hm; simp at hm, by trivial⟩
    | ok labels =>
        simp only [runWindow, houtcome, hfw]
        have h := sampleLoopAux_store_notFirst axes inp.samples.length 0
          ⟨0, st.ml.feats, 0, 0, 0, st.store, []⟩ inp.samples
        rw [h.2]
        refine ⟨?_, by trivial⟩
        intro m hm
        simp only [List.nil_append, List.mem_singleton] at hm
        subst hm
        dsimp only
        split_ifs <;> simp
  · intro hfw
    cases houtcome : inp.outcome with
    | error code =>
        simp only [runWindow, houtcome, hfw]
        rw [sampleLoopAux_writes_first axes inp.samples.length inp.samples 0
          ⟨0, st.ml.feats, 0, 0, 0, st.store, []⟩]
        simp
    | ok labels =>
        simp only [runWindow, houtcome, hfw]
        rw [List.filter_append, List.length_append,
          sampleLoopAux_writes_first axes inp.samples.length inp.samples 0
            ⟨0, st.ml.feats, 0, 0, 0, st.store, []⟩]
        have hsing : ∀ mm : Metrics, mm.phase ≠ UiPhase.UI_LOADING →
            (List.filter (fun m => decide (m.phase = UiPhase.UI_LOADING)) [mm]).length
              = 0 := by
          intro mm h
          simp [List.filter, h]
        rw [hsing _ (by dsimp only; split_ifs <;> simp)]
        simp
  · intro labels houtcome
    simp only [runWindow, houtcome]
  · intro code houtcome
    simp only [runWindow, houtcome]

/-- Closed instance of `c4_amended_loading_writes`: a window entered with the
flag clear keeps it clear, and a failed window entered with the flag set logs
exactly one LOADING write for its one sample. -/
theorem c4_amended_loading_writes_witness :
    (runWindow 4 ⟨⟨0, [0, 0, 0], 0, false, [0, 0, 0, 0]⟩, ⟨true, g_last_init⟩, false⟩
        ⟨[(1, 1, true)], Except.error 5, true⟩).sys.ml.firstWindow = false
    ∧ ((runWindow 4 ⟨⟨0, [0, 0, 0], 0, true, [0, 0, 0, 0]⟩, ⟨true, g_last_init⟩, false⟩
        ⟨[(1, 1, true)], Except.error 5, true⟩).writes.filter
          (fun m => m.phase = UiPhase.UI_LOADING)).length = 1 := by
  refine ⟨((c4_amended_loading_writes 4 _ _).1 rfl).2, ?_⟩
  have h := (c4_amended_loading_writes 4
    ⟨⟨0, [0, 0, 0], 0, true, [0, 0, 0, 0]⟩, ⟨true, g_last_init⟩, false⟩
    ⟨[(1, 1, true)], Except.error 5, true⟩).2.1 rfl
  simpa using h

/-! ### C8: the telemetry line -/

/-- A sample step adds the reading's voltage, current and V·I product to the
running sums, for any guard outcome and either first-window flag. -/
theorem sampleStep_sums (axes rawCount : ℕ) (fw : Bool) (acc : SampAcc)
    (n : ℕ) (s : ℚ × ℚ × Bool) :
    (sampleStep axes rawCount fw acc n s).sumV = acc.sumV + s.1
    ∧ (sampleStep axes rawCount fw acc n s).sumI = acc.sumI + s.2.1
    ∧ (sampleStep axes rawCount fw acc n s).sumP = acc.sumP + s.1 * s.2.1 := by
  simp only [sampleStep]
  split_ifs <;> simp_all

/-- The sample loop accumulates the window sums of voltage, current and the
per-sample V·I products. -/
theorem sampleLoopAux_sums (axes rawCount : ℕ) (fw : Bool)
    (samples : List (ℚ × ℚ × Bool)) :
    ∀ (n : ℕ) (acc : SampAcc),
      (sampleLoopAux axes rawCount fw n acc samples).sumV
          = acc.sumV + (samples.map (fun s => s.1)).sum
      ∧ (sampleLoopAux axes rawCount fw n acc samples).sumI
          = acc.sumI + (samples.map (fun s => s.2.1)).sum
      ∧ (sampleLoopAux axes rawCount fw n acc samples).sumP
          = acc.sumP + (samples.map (fun s => s.1 * s.2.1)).sum := by
  induction samples with
  | nil => intro n acc; simp [sampleLoopAux]
  | cons s rest ih =>
      intro n acc
      simp only [sampleLoopAux, List.map_cons, List.sum_cons]
      have hs := sampleStep_sums axes rawCount fw acc n s
      have hr := ih (n + 1) (sampleStep axes rawCount fw acc n s)
      refine ⟨?_, ?_, ?_⟩
      · rw [hr.1, hs.1]; ring
      · rw [hr.2.1, hs.2.1]; ring
      · rw [hr.2.2, hs.2.2]; ring

/-- C8: every successfully classified window emits exactly one telemetry
line, rendered by `dataLine` (the `DATA:V=%.3f,I=%.3f,P=%.3f,THEFT=%.2f,`
`ALERT=%d` format, alert as 0/1) from the window-mean voltage, the
window-mean current, the window-mean of the per-sample V·I products, the
updated smoothed ewma and the alert flag; and at the claimed vector — means
exactly `4603/20 = 230.150`, `113/250 = 0.452`, `10417/100 = 104.170` (the
product-mean realized by samples `(18649/80, 1/2)` and `(3635/16, 101/250)`),
ewma 0.15, alert off — the rendered line is exactly
`DATA:V=230.150,I=0.452,P=104.170,THEFT=0.15,ALERT=0`. -/
theorem c8_telemetry_line :
    (∀ (axes : ℕ) (st : SysState) (inp : WindowInput)
        (labels : List (String × ℚ)),
      inp.outcome = Except.ok labels →
      (runWindow axes st inp).lines
        = [dataLine
            ((inp.samples.map (fun s => s.1)).sum / (inp.samples.length : ℚ))
            ((inp.samples.map (fun s => s.2.1)).sum / (inp.samples.length : ℚ))
            ((inp.samples.map (fun s => s.1 * s.2.1)).sum / (inp.samples.length : ℚ))
            (decisionUpdate st.ml.ewma st.ml.votes st.ml.idx
              (theft_metric_from_labels labels inp.relayAfter)).ewma
            (decisionUpdate st.ml.ewma st.ml.votes st.ml.idx
              (theft_metric_from_labels labels inp.relayAfter)).alert])
    ∧ dataLine (mkRat 4603 20) (mkRat 113 250) (mkRat 10417 100) (3/20) false
        = "DATA:V=230.150,I=0.452,P=104.170,THEFT=0.15,ALERT=0"
    ∧ ((mkRat 4603 20 : ℚ) = 230.150 ∧ (mkRat 113 250 : ℚ) = 0.452
        ∧ (mkRat 10417 100 : ℚ) = 104.170 ∧ (3 : ℚ)/20 = 0.15)
    ∧ (mkRat 18649 80 * (1/2) + mkRat 3635 16 * mkRat 101 250) / 2
        = mkRat 10417 100
    ∧ (mkRat 18649 80 + mkRat 3635 16) / 2 = mkRat 4603 20
    ∧ ((1/2 : ℚ) + mkRat 101 250) / 2 = mkRat 113 250 := by
  refine ⟨?_, ?_, ⟨?_, ?_, ?_, ?_⟩, ?_, ?_, ?_⟩
  · intro axes st inp labels hok
    have hs := sampleLoopAux_sums axes inp.samples.length st.ml.firstWindow
      inp.samples 0 ⟨0, st.ml.feats, 0, 0, 0, st.store, []⟩
    simp only [runWindow, hok]
    rw [hs.1, hs.2.1, hs.2.2]
    norm_num
  · with_unfolding_all decide
  · norm_num [Rat.mkRat_eq_div]
  · norm_num [Rat.mkRat_eq_div]
  · norm_num [Rat.mkRat_eq_div]
  · norm_num
  · norm_num [Rat.mkRat_eq_div]
  · norm_num [Rat.mkRat_eq_div]
  · norm_num [Rat.mkRat_eq_div]

/-- Closed instance of `c8_telemetry_line`: the concrete two-sample window
with means exactly 230.150 / 0.452 / 104.170, prior ewma 0.1 and a `normal`
classification of probability 0.8 (so ewma' = 0.15, alert off) emits exactly
the claimed line. -/
theorem c8_telemetry_line_witness :
    (runWindow 4
        ⟨⟨1/10, [0, 0, 0], 0, false, List.replicate 8 0⟩, ⟨true, g_last_init⟩, false⟩
        ⟨[(mkRat 18649 80, 1/2, true), (mkRat 3635 16, mkRat 101 250, true)],
          Except.ok [("normal", 4/5)], true⟩).lines
      = ["DATA:V=230.150,I=0.452,P=104.170,THEFT=0.15,ALERT=0"] := by
  have h := c8_telemetry_line.1 4
    ⟨⟨1/10, [0, 0, 0], 0, false, List.replicate 8 0⟩, ⟨true, g_last_init⟩, false⟩
    ⟨[(mkRat 18649 80, 1/2, true), (mkRat 3635 16, mkRat 101 250, true)],
      Except.ok [("normal", 4/5)], true⟩ [("normal", 4/5)] rfl
  rw [h]
  with_unfolding_all decide

end SmartMeter

